/-
Verification of the chunked file-transfer core of secure-p2p-share-tor.

Shallow embedding of the relevant parts of the Python source:
  * src/file_handler.py : FileMetadata, get_file_metadata, read_chunk, write_chunk
  * src/transfer.py     : the send_file chunk loop, and _receive_file — whose
                          body aborts with NameError at line 173 (the module
                          never imports os), so the receiver protocol it
                          contains is dead code; receive_file models the
                          session including that abort, receive_loop and
                          verify_phase model the unreachable loop and
                          verification text
  * src/encryption.py   : encrypt_file / decrypt_file (AES-256-CBC + PKCS7),
                          parametric in the block cipher and the key-derivation
                          function.

Files are modelled as lists of bytes (List Nat); the network is modelled as the
sequence of framed messages the peer delivers.  The SHA-256 checksum is an
abstract parameter (hash : List Nat → String): the claims below depend only on
how the code compares and transports checksums, never on the digest function
itself.
-/
import Mathlib

set_option linter.unusedVariables false

/-! ## file_handler.py -/

/-- FileMetadata from src/file_handler.py.  The Python dataclass defaults
`chunk_size` to 1 MiB and `encrypted` to False. -/
structure FileMetadata where
  filename : String
  filesize : Nat
  chunks : Nat
  checksum : String
  chunk_size : Nat
  encrypted : Bool
deriving Repr, DecidableEq

/-- The chunk count computed in get_file_metadata:
`chunks = (filesize + self.chunk_size - 1) // self.chunk_size`. -/
def total_chunks (filesize chunk_size : Nat) : Nat :=
  (filesize + chunk_size - 1) / chunk_size

/-- get_file_metadata from src/file_handler.py, for an existing file.  The
checksum is the (abstract) SHA-256 hex digest of the file bytes; `encrypted`
is left at its dataclass default False because the constructor call does not
pass it. -/
def get_file_metadata (hash : List Nat → String) (filename : String)
    (file : List Nat) (chunk_size : Nat) : FileMetadata :=
  { filename := filename
    filesize := file.length
    chunks := total_chunks file.length chunk_size
    checksum := hash file
    chunk_size := chunk_size
    encrypted := false }

/-- read_chunk from src/file_handler.py: seek to `chunk_index * chunk_size`
and read up to `chunk_size` bytes. -/
def read_chunk (file : List Nat) (chunk_size : Nat) (chunk_index : Nat) : List Nat :=
  (file.drop (chunk_index * chunk_size)).take chunk_size

/-- write_chunk from src/file_handler.py.  For `chunk_index = 0` the file is
opened with mode wb (truncate, write at start).  For `chunk_index > 0` it is
opened with mode ab: the code then seeks to `chunk_index * chunk_size`, but in
append mode every write lands at the current end of file regardless of the
seek position (POSIX O_APPEND, as documented for Python open), so the data is
appended.  A missing file behaves as the empty file. -/
def write_chunk (file : List Nat) (chunk_size : Nat) (chunk_index : Nat)
    (data : List Nat) : List Nat :=
  if chunk_index > 0 then file ++ data else data

/-! ### Arithmetic facts about total_chunks -/

/-- `total_chunks` brackets the file size: `S ≤ C * chunks < S + C`. -/
theorem total_chunks_bounds (S C : Nat) (hC : 0 < C) :
    S ≤ C * total_chunks S C ∧ C * total_chunks S C < S + C := by
  have hdm := Nat.div_add_mod (S + C - 1) C
  have hm : (S + C - 1) % C < C := Nat.mod_lt _ hC
  unfold total_chunks
  omega

/-- C7: `total_chunks` computed by get_file_metadata is the ceiling of
`filesize / chunk_size`, and it is zero only for the empty file. -/
theorem claim_C7_chunks_eq_ceil (hash : List Nat → String) (name : String)
    (file : List Nat) (C : Nat) (hC : 0 < C) :
    ((get_file_metadata hash name file C).chunks : ℤ)
        = ⌈(file.length : ℚ) / (C : ℚ)⌉
    ∧ ((get_file_metadata hash name file C).chunks = 0 → file.length = 0) := by
  set S := file.length with hS
  have hb := total_chunks_bounds S C hC
  constructor
  · show ((total_chunks S C : ℤ)) = ⌈(S : ℚ) / (C : ℚ)⌉
    symm
    rw [Int.ceil_eq_iff]
    have hCq : (0 : ℚ) < (C : ℚ) := by exact_mod_cast hC
    have hb1 : (S : ℚ) ≤ (C : ℚ) * (total_chunks S C : ℚ) := by exact_mod_cast hb.1
    have hb2 : (C : ℚ) * (total_chunks S C : ℚ) < (S : ℚ) + (C : ℚ) := by
      exact_mod_cast hb.2
    constructor
    · rw [lt_div_iff₀ hCq]
      push_cast
      linarith
    · rw [div_le_iff₀ hCq]
      push_cast
      linarith
  · intro h0
    show S = 0
    have : (get_file_metadata hash name file C).chunks = total_chunks S C := rfl
    rw [this] at h0
    have := hb.1
    rw [h0] at this
    omega

/-- Witness for C7 at a concrete input: file of 3 bytes, chunk size 2. -/
theorem claim_C7_chunks_eq_ceil_witness :
    0 < 2 ∧
    (((get_file_metadata (fun _ => "h") "f" [0, 0, 0] 2).chunks : ℤ)
        = ⌈(([0, 0, 0] : List Nat).length : ℚ) / ((2 : Nat) : ℚ)⌉
    ∧ ((get_file_metadata (fun _ => "h") "f" [0, 0, 0] 2).chunks = 0
        → ([0, 0, 0] : List Nat).length = 0)) :=
  ⟨by decide, claim_C7_chunks_eq_ceil (fun _ => "h") "f" [0, 0, 0] 2 (by decide)⟩

/-! ### Chunk coverage (C6) -/

/-- Concatenating the first `n` chunks of a file yields its first `n * C`
bytes. -/
theorem join_read_chunks (file : List Nat) (C : Nat) :
    ∀ n : Nat,
      ((List.range n).map (fun i => read_chunk file C i)).flatten
        = file.take (n * C) := by
  intro n
  induction n with
  | zero => simp
  | succ n ih =>
      rw [List.range_succ, List.map_append, List.flatten_append, ih]
      simp only [List.map_cons, List.map_nil, List.flatten_cons, List.flatten_nil,
        List.append_nil]
      rw [read_chunk, ← List.take_add]
      congr 1
      ring

/-- C6: reading chunks 0 .. total_chunks-1 in order and concatenating them
reproduces the file exactly, and every chunk except possibly the last has
length exactly `chunk_size`. -/
theorem claim_C6_chunk_coverage (hash : List Nat → String) (name : String)
    (file : List Nat) (C : Nat) (hC : 0 < C) :
    ((List.range (get_file_metadata hash name file C).chunks).map
        (fun i => read_chunk file C i)).flatten = file
    ∧ ∀ i, i + 1 < (get_file_metadata hash name file C).chunks →
        (read_chunk file C i).length = C := by
  set S := file.length with hS
  have hb := total_chunks_bounds S C hC
  have hq : (get_file_metadata hash name file C).chunks = total_chunks S C := rfl
  constructor
  · rw [hq, join_read_chunks]
    apply List.take_of_length_le
    have := hb.1
    calc file.length = S := hS.symm
      _ ≤ C * total_chunks S C := hb.1
      _ ≤ total_chunks S C * C := by rw [Nat.mul_comm]
  · intro i hi
    rw [hq] at hi
    -- i*C + C ≤ S, so the take of C bytes is full
    have h1 : i + 2 ≤ total_chunks S C := hi
    have h2 : C * (i + 2) ≤ C * total_chunks S C := Nat.mul_le_mul_left C h1
    have h3 : C * (i + 2) = C * i + C + C := by ring
    have h4 : C * i + C ≤ S := by omega
    rw [read_chunk]
    rw [List.length_take, List.length_drop]
    have h5 : i * C = C * i := Nat.mul_comm i C
    omega

/-- Witness for C6: 5 bytes, chunk size 2 (3 chunks: 2+2+1). -/
theorem claim_C6_chunk_coverage_witness :
    0 < 2 ∧
    (((List.range (get_file_metadata (fun _ => "h") "f" [1, 2, 3, 4, 5] 2).chunks).map
        (fun i => read_chunk [1, 2, 3, 4, 5] 2 i)).flatten = [1, 2, 3, 4, 5]
    ∧ ∀ i, i + 1 < (get_file_metadata (fun _ => "h") "f" [1, 2, 3, 4, 5] 2).chunks →
        (read_chunk [1, 2, 3, 4, 5] 2 i).length = 2) :=
  ⟨by decide, claim_C6_chunk_coverage (fun _ => "h") "f" [1, 2, 3, 4, 5] 2 (by decide)⟩

/-! ### The write_chunk append bug (C1) -/

/-- C1: evaluation of the code at a failing input.  With chunk size 4, writing
chunk 0 = [1,1,1,1] and then chunk 2 = [3,3] must, per the claim, put [3,3] at
byte offset 2*4 = 8.  The code instead appends it at offset 4 (append mode
ignores the seek), so the file is [1,1,1,1,3,3] and offset 8 holds nothing. -/
theorem claim_C1_append_bug :
    write_chunk (write_chunk [] 4 0 [1, 1, 1, 1]) 4 2 [3, 3] = [1, 1, 1, 1, 3, 3]
    ∧ ((write_chunk (write_chunk [] 4 0 [1, 1, 1, 1]) 4 2 [3, 3]).drop (2 * 4)).take 2
        ≠ [3, 3] := by
  decide

/-! ### Handshake metadata encrypted flag (C10) -/

/-- The metadata_dict built by send_file in src/transfer.py before the
handshake. -/
structure SendMetadataDict where
  filename : String
  filesize : Nat
  chunks : Nat
  checksum : String
  chunk_size : Nat
  encrypted : Bool
  action : String
deriving Repr, DecidableEq

/-- The construction of metadata_dict in send_file:
`'encrypted': password is not None`. -/
def send_metadata_dict (metadata : FileMetadata) (password : Option String) :
    SendMetadataDict :=
  { filename := metadata.filename
    filesize := metadata.filesize
    chunks := metadata.chunks
    checksum := metadata.checksum
    chunk_size := metadata.chunk_size
    encrypted := password.isSome
    action := "send_file" }

/-- C10: the handshake's encrypted flag is exactly `password.isSome`,
independent of the file content, and get_file_metadata itself always yields
`encrypted = false`. -/
theorem claim_C10_encrypted_flag (hash : List Nat → String) (name : String)
    (file : List Nat) (C : Nat) (password : Option String) :
    (send_metadata_dict (get_file_metadata hash name file C) password).encrypted
        = password.isSome
    ∧ (get_file_metadata hash name file C).encrypted = false := by
  constructor <;> rfl

/-! ## transfer.py — receiver side -/

/-- The control token `CHUNK_<index>_OK` sent by the receiver and awaited by
the sender. -/
def chunk_ok_token (index : Nat) : String :=
  "CHUNK_" ++ toString index ++ "_OK"

/-- One framed unit delivered to the receiver loop: either a chunk-header
control line `{index, size, final}` together with the raw payload bytes the
peer delivers before any disconnect (`avail`), or a zero-length read while
waiting for the header line. -/
inductive NetEvent where
  | header (index : Nat) (size : Nat) (avail : List Nat)
  | disconnect
deriving Repr, DecidableEq

/-- State of one receiver session: the destination file content, the control
tokens sent back so far, and the received_chunks counter. -/
structure RecvState where
  file : List Nat
  acks : List String
  received_chunks : Nat
deriving Repr, DecidableEq

/-- The initial receiver session state: no destination file yet, nothing
acknowledged. -/
def recv_init : RecvState := ⟨[], [], 0⟩

/-- The receive loop of _receive_file in src/transfer.py, lines 182-216, as
written (`while received_chunks < total_chunks`).  Payload accumulation reads
until `size` bytes have arrived or a zero-length read occurs; with `avail`
bytes available the accumulated data is `avail.take size` when enough
arrived and the partial `avail` otherwise.  The loop then writes the chunk
via write_chunk, sends `CHUNK_<index>_OK`, increments received_chunks and
continues; an empty header read exits the loop.  In the program this loop is
unreachable: _receive_file raises NameError at line 173 before reaching it
(see receive_file below). -/
def receive_loop (chunk_size total : Nat) : List NetEvent → RecvState → RecvState
  | [], s => s
  | NetEvent.disconnect :: _, s => s
  | NetEvent.header i size avail :: rest, s =>
      if s.received_chunks < total then
        receive_loop chunk_size total rest
          { file := write_chunk s.file chunk_size i
              (if size ≤ avail.length then avail.take size else avail)
            acks := s.acks ++ [chunk_ok_token i]
            received_chunks := s.received_chunks + 1 }
      else s

/-- The verification block of _receive_file, lines 218-233, as written: on
the literal completion token the checksum of the destination file is
recomputed and compared with the declared one; the result is the reply token
together with the argument of the file-received notification (`none` when it
is not invoked, which also covers an absent callback).  In the program this
block is unreachable: _receive_file raises NameError at line 173 before
reaching it (see receive_file below). -/
def verify_phase (hash : List Nat → String) (expected : String)
    (completion : String) (file : List Nat) (output_path : String)
    (has_callback : Bool) : String × Option String :=
  if completion = "TRANSFER_COMPLETE" then
    if hash file = expected then
      ("SUCCESS", if has_callback then some output_path else none)
    else
      ("CHECKSUM_MISMATCH", none)
  else
    ("TRANSFER_INCOMPLETE", none)

/-- The module-level names bound by the import statements at the top of
src/transfer.py: `socket, json, time, threading`, `Optional` and `Callable`
from typing, `tqdm`, `FileHandler` and `FileMetadata` from .file_handler,
`TorClient` from .tor_client.  The name `os` is not among them: transfer.py
never imports `os`. -/
def transfer_module_imports : List String :=
  ["socket", "json", "time", "threading", "Optional", "Callable", "tqdm",
    "FileHandler", "FileMetadata", "TorClient"]

/-- Whether the name `os` is bound in the transfer module's namespace.  It is
not, so the evaluation of `os.path.join` at transfer.py line 173 raises
NameError at run time. -/
def transfer_has_os : Bool := transfer_module_imports.contains "os"

/-- The observable effects of one call to _receive_file: every control token
sent on the socket (READY, chunk acknowledgments and the result token, in
order), the destination file content (`none` when the file was never
created), the final received_chunks count, and the argument of the
file-received notification (`none` when it was never invoked). -/
structure RecvSession where
  sent : List String
  file : Option (List Nat)
  received_chunks : Nat
  notified : Option String
deriving Repr, DecidableEq

/-- _receive_file in src/transfer.py.  After extracting the metadata fields,
the function evaluates `output_path = os.path.join(download_dir, filename)`
at line 173, inside its try block and before `sock.send(b'READY\x5cn')` at
line 176.  The name `os` is unbound in the module (transfer_has_os is
false), so the line raises NameError, which the handler at line 235
swallows: the session ends with nothing sent, nothing written and no
notification invoked.  The branch guarded by transfer_has_os is the rest of
the body as written — READY, the chunk loop, the verification block — and is
dead code in this program. -/
def receive_file (hash : List Nat → String) (chunk_size total : Nat)
    (expected output_path : String) (has_callback : Bool)
    (events : List NetEvent) (completion : String) : RecvSession :=
  if transfer_has_os then
    let s := receive_loop chunk_size total events recv_init
    let r := verify_phase hash expected completion s.file output_path has_callback
    { sent := "READY" :: (s.acks ++ [r.1])
      file := some s.file
      received_chunks := s.received_chunks
      notified := r.2 }
  else
    { sent := [], file := none, received_chunks := 0, notified := none }

/-! ### C2, C4, C9: the receiver protocol never executes -/

/-- C2: evaluation of the code at the failing input.  Chunk 0 declares 10
bytes and the peer delivers only 3 before disconnecting; the claimed
abort-on-short-read policy never gets to apply, because every receiver
session has already ended: the NameError at transfer.py line 173 (`os`
unbound) aborts _receive_file before READY, so nothing is sent, no file is
written and no chunk is acknowledged. -/
theorem claim_C2_receiver_never_runs :
    receive_file (fun _ => "h") 4 2 "c" "downloads/f" true
        [NetEvent.header 0 10 [1, 2, 3]] "TRANSFER_COMPLETE"
      = { sent := [], file := none, received_chunks := 0, notified := none } :=
  rfl

/-- C4: the verification block never executes.  For every session — declared
checksum and hash function arbitrary, a matching checksum included — the
receiver never invokes the file-received notification and never sends
SUCCESS or CHECKSUM_MISMATCH: _receive_file raises NameError at transfer.py
line 173 before READY, so no session reaches lines 218-233. -/
theorem claim_C4_verify_never_reached (hash : List Nat → String)
    (chunk_size total : Nat) (expected output_path : String)
    (has_callback : Bool) (events : List NetEvent) (completion : String) :
    (receive_file hash chunk_size total expected output_path has_callback
        events completion).notified = none
    ∧ "SUCCESS" ∉ (receive_file hash chunk_size total expected output_path
        has_callback events completion).sent
    ∧ "CHECKSUM_MISMATCH" ∉ (receive_file hash chunk_size total expected
        output_path has_callback events completion).sent := by
  have h : receive_file hash chunk_size total expected output_path
      has_callback events completion
      = { sent := [], file := none, received_chunks := 0, notified := none } := rfl
  rw [h]
  exact ⟨rfl, by simp, by simp⟩

/-- C9: the receiver loop never executes, so received_chunks never counts
anything.  For every session the counter stays 0 and no `CHUNK_<i>_OK` token
is ever sent, so no session terminates as complete for any positive
total_chunks: _receive_file raises NameError at transfer.py line 173 before
the loop at lines 182-216. -/
theorem claim_C9_no_chunk_ever_acknowledged (hash : List Nat → String)
    (chunk_size total : Nat) (expected output_path : String)
    (has_callback : Bool) (events : List NetEvent) (completion : String) :
    (receive_file hash chunk_size total expected output_path has_callback
        events completion).received_chunks = 0
    ∧ ∀ i, chunk_ok_token i ∉ (receive_file hash chunk_size total expected
        output_path has_callback events completion).sent := by
  have h : receive_file hash chunk_size total expected output_path
      has_callback events completion
      = { sent := [], file := none, received_chunks := 0, notified := none } := rfl
  rw [h]
  exact ⟨rfl, fun i => by simp⟩

/-! ## transfer.py — sender side -/

/-- The chunk loop of send_file in src/transfer.py, over
`chunk_index in range(metadata.chunks)`.  `acks` gives the (stripped) control
token the peer returns after chunk `i`; a disconnect surfaces as the empty
string.  The result is the list of chunk indices whose header and payload
were sent, and whether the loop finished without abort.  An empty chunk read
(falsy `chunk_data`) aborts before sending; a wrong acknowledgment aborts
after sending chunk `i` and before any later chunk. -/
def send_loop (chunk_size : Nat) (file : List Nat) (acks : Nat → String) :
    Nat → Nat → List Nat → List Nat × Bool
  | 0, _, sent => (sent, true)
  | r + 1, i, sent =>
      let chunk_data := read_chunk file chunk_size i
      if chunk_data = [] then (sent, false)
      else if acks i = chunk_ok_token i then
        send_loop chunk_size file acks r (i + 1) (sent ++ [i])
      else (sent ++ [i], false)

/-- send_file's transfer part in src/transfer.py: run the chunk loop over all
`total_chunks` chunks; on success send TRANSFER_COMPLETE and succeed exactly
when the final reply is the literal SUCCESS. -/
def send_file (chunk_size : Nat) (file : List Nat) (acks : Nat → String)
    (final_ack : String) : List Nat × Bool :=
  match send_loop chunk_size file acks (total_chunks file.length chunk_size) 0 [] with
  | (sent, true) => (sent, final_ack = "SUCCESS")
  | (sent, false) => (sent, false)

/-- Every chunk index below total_chunks reads a non-empty chunk. -/
theorem read_chunk_ne_nil (file : List Nat) (C j : Nat) (hC : 0 < C)
    (hj : j < total_chunks file.length C) :
    read_chunk file C j ≠ [] := by
  have hb := total_chunks_bounds file.length C hC
  have h1 : C * (j + 1) ≤ C * total_chunks file.length C :=
    Nat.mul_le_mul_left C hj
  have h2 : C * (j + 1) = C * j + C := by ring
  have h3 : C * j < file.length := by omega
  have h4 : 0 < (read_chunk file C j).length := by
    rw [read_chunk, List.length_take, List.length_drop]
    have h5 : j * C = C * j := Nat.mul_comm j C
    omega
  exact List.ne_nil_of_length_pos h4

/-- If every acknowledgment from `start` up to (excluding) the bad index `i`
is correct, the one for `i` is wrong, and all chunks through `i` are
non-empty, the loop sends exactly chunks `start .. i` and fails. -/
theorem send_loop_abort (chunk_size : Nat) (file : List Nat)
    (acks : Nat → String) (i : Nat) :
    ∀ (r start : Nat) (sent : List Nat),
      start ≤ i → i < start + r →
      (∀ j, start ≤ j → j ≤ i → read_chunk file chunk_size j ≠ []) →
      (∀ j, start ≤ j → j < i → acks j = chunk_ok_token j) →
      acks i ≠ chunk_ok_token i →
      send_loop chunk_size file acks r start sent
        = (sent ++ List.range' start (i + 1 - start), false) := by
  intro r
  induction r with
  | zero => intro start sent h1 h2 _ _ _; omega
  | succ r ih =>
      intro start sent h1 h2 hne hgood hbad
      have hchunk : read_chunk file chunk_size start ≠ [] :=
        hne start le_rfl h1
      by_cases hsi : start = i
      · subst hsi
        have : acks start ≠ chunk_ok_token start := hbad
        simp only [send_loop, if_neg hchunk, if_neg this]
        congr 1
        have : start + 1 - start = 1 := by omega
        rw [this]
        rfl
      · have hlt : start < i := by omega
        have hok : acks start = chunk_ok_token start := hgood start le_rfl hlt
        simp only [send_loop, if_neg hchunk, if_pos hok]
        rw [ih (start + 1) (sent ++ [start]) (by omega) (by omega)
          (fun j hj1 hj2 => hne j (by omega) hj2)
          (fun j hj1 hj2 => hgood j (by omega) hj2) hbad]
        rw [List.append_assoc]
        congr 2
        have hr : i + 1 - start = (i + 1 - (start + 1)) + 1 := by omega
        rw [hr, List.range'_succ]
        rfl
  
/-- C5: if the acknowledgment for chunk `i` is not the literal
`CHUNK_<i>_OK` (a disconnect giving the empty string included) while all
earlier acknowledgments were correct, send_file fails and the chunks sent are
exactly 0 .. i: no header or payload of any index above `i` is ever sent. -/
theorem claim_C5_ack_mismatch_aborts (chunk_size : Nat) (file : List Nat)
    (acks : Nat → String) (final_ack : String) (i : Nat)
    (hC : 0 < chunk_size)
    (hi : i < total_chunks file.length chunk_size)
    (hbad : acks i ≠ chunk_ok_token i)
    (hgood : ∀ j, j < i → acks j = chunk_ok_token j) :
    send_file chunk_size file acks final_ack = (List.range (i + 1), false) := by
  have h := send_loop_abort chunk_size file acks i
    (total_chunks file.length chunk_size) 0 []
    (by omega) (by omega)
    (fun j _ hj => read_chunk_ne_nil file chunk_size j hC (by omega))
    (fun j _ hj => hgood j hj) hbad
  rw [send_file, h]
  rw [List.nil_append]
  rw [List.range_eq_range']
  simp

/-- Witness for C5: 5-byte file, chunk size 2 (3 chunks); the peer
acknowledges chunk 0 correctly and answers garbage for chunk 1, so exactly
chunks 0 and 1 are sent and the transfer fails. -/
theorem claim_C5_ack_mismatch_aborts_witness :
    0 < 2 ∧ 1 < total_chunks ([1, 2, 3, 4, 5] : List Nat).length 2 ∧
    (fun j => if j = 0 then chunk_ok_token 0 else "") 1 ≠ chunk_ok_token 1 ∧
    (∀ j, j < 1 → (fun j => if j = 0 then chunk_ok_token 0 else "") j
        = chunk_ok_token j) ∧
    send_file 2 [1, 2, 3, 4, 5]
        (fun j => if j = 0 then chunk_ok_token 0 else "") "SUCCESS"
      = (List.range 2, false) :=
  ⟨by decide, by decide, by decide, by decide,
    claim_C5_ack_mismatch_aborts 2 [1, 2, 3, 4, 5]
      (fun j => if j = 0 then chunk_ok_token 0 else "") "SUCCESS" 1
      (by decide) (by decide) (by decide)
      (by intro j hj; interval_cases j; rfl)⟩

/-! ## encryption.py

AES-256-CBC with PKCS7 padding over a 16-byte salt ‖ 16-byte IV header.
The block cipher (AES under the derived key) and the key-derivation function
(PBKDF2-HMAC-SHA256) are abstract parameters: the claims below depend only on
the container layout, the CBC chaining, and the padding, together with the
defining property of a block cipher that decryption inverts encryption on
16-byte blocks.  Bytes are Nat, blocks are 16-byte lists. -/

/-- Byte-wise xor of two equal-length byte strings (CBC chaining). -/
def xor_bytes (a b : List Nat) : List Nat := List.zipWith Nat.xor a b

/-- PKCS7 padding for a 128-bit block: append `n = 16 - len mod 16` bytes of
value `n` (a full block of 16s when the length is already a multiple). -/
def pkcs7_pad (data : List Nat) : List Nat :=
  let n := 16 - data.length % 16
  data ++ List.replicate n n

/-- PKCS7 unpadding as performed by the cryptography library's unpadder:
the data must be a non-empty multiple of 16 bytes whose last byte `n` is in
1..16 and whose last `n` bytes all equal `n`; otherwise unpadding fails. -/
def pkcs7_unpad (data : List Nat) : Option (List Nat) :=
  let n := data.getLast?.getD 0
  if data.length % 16 = 0 ∧ 1 ≤ n ∧ n ≤ 16 ∧ n ≤ data.length
      ∧ ∀ b ∈ data.drop (data.length - n), b = n then
    some (data.take (data.length - n))
  else
    none

/-- Split a byte string into 16-byte blocks, the recursion fueled by the
length (each step consumes at least one byte). -/
def to_blocks_aux : Nat → List Nat → List (List Nat)
  | _, [] => []
  | 0, _ :: _ => []
  | fuel + 1, a :: l => ((a :: l).take 16) :: to_blocks_aux fuel ((a :: l).drop 16)

/-- Split a byte string into consecutive 16-byte blocks (the last block may
be short when the length is not a multiple of 16). -/
def to_blocks (l : List Nat) : List (List Nat) := to_blocks_aux l.length l

/-- CBC encryption: each plaintext block is xored with the previous
ciphertext block (the IV for the first) before the cipher is applied. -/
def cbc_encrypt_blocks (E : List Nat → List Nat) (iv : List Nat) :
    List (List Nat) → List (List Nat)
  | [] => []
  | b :: bs =>
      let c := E (xor_bytes iv b)
      c :: cbc_encrypt_blocks E c bs

/-- CBC decryption: each ciphertext block is deciphered and xored with the
previous ciphertext block (the IV for the first). -/
def cbc_decrypt_blocks (D : List Nat → List Nat) (iv : List Nat) :
    List (List Nat) → List (List Nat)
  | [] => []
  | c :: cs => xor_bytes iv (D c) :: cbc_decrypt_blocks D c cs

/-- encrypt_file from src/encryption.py: write the 16-byte salt, the 16-byte
IV, then the AES-256-CBC encryption (under the key derived from password and
salt) of the PKCS7-padded plaintext.  `E` is the block cipher family and
`kdf` the key derivation, both abstract. -/
def encrypt_file {κ : Type} (E : κ → List Nat → List Nat)
    (kdf : String → List Nat → κ) (password : String)
    (salt iv plaintext : List Nat) : List Nat :=
  let key := kdf password salt
  salt ++ iv ++ (cbc_encrypt_blocks (E key) iv (to_blocks (pkcs7_pad plaintext))).flatten

/-- decrypt_file from src/encryption.py: read the 16-byte salt and 16-byte
IV, derive the key from the password and salt, CBC-decrypt the remainder and
strip the PKCS7 padding; a padding failure is the overall failure (`none`). -/
def decrypt_file {κ : Type} (D : κ → List Nat → List Nat)
    (kdf : String → List Nat → κ) (password : String)
    (ciphertext : List Nat) : Option (List Nat) :=
  let salt := ciphertext.take 16
  let iv := (ciphertext.drop 16).take 16
  let body := ciphertext.drop 32
  let key := kdf password salt
  pkcs7_unpad (cbc_decrypt_blocks (D key) iv (to_blocks body)).flatten

/-! ### CBC and PKCS7 round-trip lemmas -/

/-- Xoring twice with the same (long enough) byte string is the identity. -/
theorem xor_bytes_cancel : ∀ (iv b : List Nat), b.length ≤ iv.length →
    xor_bytes iv (xor_bytes iv b) = b := by
  intro iv
  induction iv with
  | nil =>
      intro b hb
      cases b with
      | nil => rfl
      | cons y ys => simp at hb
  | cons x xs ih =>
      intro b hb
      cases b with
      | nil => rfl
      | cons y ys =>
          show (x ^^^ (x ^^^ y)) :: xor_bytes xs (xor_bytes xs ys) = y :: ys
          rw [← Nat.xor_assoc, Nat.xor_self, Nat.zero_xor]
          rw [ih ys (by simpa using hb)]

/-- The xor of two 16-byte strings has 16 bytes. -/
theorem xor_bytes_length (a b : List Nat) (ha : a.length = 16)
    (hb : b.length = 16) : (xor_bytes a b).length = 16 := by
  simp [xor_bytes, ha, hb]

/-- CBC decryption inverts CBC encryption on 16-byte blocks, for any block
cipher whose decryption inverts its encryption. -/
theorem cbc_roundtrip (E D : List Nat → List Nat)
    (hD : ∀ b, b.length = 16 → D (E b) = b)
    (hE : ∀ b, b.length = 16 → (E b).length = 16) :
    ∀ (bs : List (List Nat)) (iv : List Nat), iv.length = 16 →
      (∀ b ∈ bs, b.length = 16) →
      cbc_decrypt_blocks D iv (cbc_encrypt_blocks E iv bs) = bs := by
  intro bs
  induction bs with
  | nil => intro iv _ _; rfl
  | cons b bs ih =>
      intro iv hiv hlen
      have hb : b.length = 16 := hlen b (by simp)
      have hx : (xor_bytes iv b).length = 16 := xor_bytes_length iv b hiv hb
      show xor_bytes iv (D (E (xor_bytes iv b)))
          :: cbc_decrypt_blocks D (E (xor_bytes iv b))
              (cbc_encrypt_blocks E (E (xor_bytes iv b)) bs)
        = b :: bs
      rw [hD _ hx]
      congr 1
      · exact xor_bytes_cancel iv b (by omega)
      · exact ih (E (xor_bytes iv b)) (hE _ hx) (fun x hx' => hlen x (by simp [hx']))

/-- Every ciphertext block produced by CBC encryption of 16-byte blocks has
16 bytes. -/
theorem cbc_encrypt_blocks_all16 (E : List Nat → List Nat)
    (hE : ∀ b, b.length = 16 → (E b).length = 16) :
    ∀ (bs : List (List Nat)) (iv : List Nat), iv.length = 16 →
      (∀ b ∈ bs, b.length = 16) →
      ∀ c ∈ cbc_encrypt_blocks E iv bs, c.length = 16 := by
  intro bs
  induction bs with
  | nil => intro iv _ _ c hc; simp [cbc_encrypt_blocks] at hc
  | cons b bs ih =>
      intro iv hiv hlen c hc
      have hb : b.length = 16 := hlen b (by simp)
      have hx : (xor_bytes iv b).length = 16 := xor_bytes_length iv b hiv hb
      have hc' : c = E (xor_bytes iv b)
          ∨ c ∈ cbc_encrypt_blocks E (E (xor_bytes iv b)) bs := by
        simpa [cbc_encrypt_blocks] using hc
      rcases hc' with rfl | hc'
      · exact hE _ hx
      · exact ih (E (xor_bytes iv b)) (hE _ hx) (fun x hx' => hlen x (by simp [hx'])) c hc'

/-- Flattening the blocks of a byte string gives the byte string back. -/
theorem to_blocks_aux_flatten : ∀ (fuel : Nat) (l : List Nat),
    l.length ≤ fuel → (to_blocks_aux fuel l).flatten = l := by
  intro fuel
  induction fuel with
  | zero =>
      intro l hl
      cases l with
      | nil => rfl
      | cons a t => simp at hl
  | succ n ih =>
      intro l hl
      cases l with
      | nil => rfl
      | cons a t =>
          show (a :: t).take 16 ++ (to_blocks_aux n ((a :: t).drop 16)).flatten
            = a :: t
          rw [ih ((a :: t).drop 16)
            (by simp only [List.length_drop, List.length_cons] at *; omega)]
          exact List.take_append_drop 16 (a :: t)

/-- Flattening the blocks of a byte string gives the byte string back. -/
theorem flatten_to_blocks (l : List Nat) : (to_blocks l).flatten = l :=
  to_blocks_aux_flatten l.length l le_rfl

/-- When a byte string's length is a multiple of 16, every block has exactly
16 bytes. -/
theorem to_blocks_aux_all16 : ∀ (fuel : Nat) (l : List Nat),
    l.length ≤ fuel → l.length % 16 = 0 →
    ∀ b ∈ to_blocks_aux fuel l, b.length = 16 := by
  intro fuel
  induction fuel with
  | zero =>
      intro l hl _ b hb
      cases l with
      | nil => simp [to_blocks_aux] at hb
      | cons a t => simp at hl
  | succ n ih =>
      intro l hl hmod b hb
      cases l with
      | nil => simp [to_blocks_aux] at hb
      | cons a t =>
          have hb' : b = (a :: t).take 16 ∨ b ∈ to_blocks_aux n ((a :: t).drop 16) := by
            simpa [to_blocks_aux] using hb
          rcases hb' with rfl | hb'
          · simp only [List.length_take, List.length_cons]
            simp only [List.length_cons] at hmod
            omega
          · refine ih ((a :: t).drop 16) ?_ ?_ b hb'
            · simp only [List.length_drop, List.length_cons] at *
              omega
            · simp only [List.length_drop, List.length_cons] at *
              omega

/-- When a byte string's length is a multiple of 16, every block has exactly
16 bytes. -/
theorem to_blocks_all16 (l : List Nat) (h : l.length % 16 = 0) :
    ∀ b ∈ to_blocks l, b.length = 16 :=
  to_blocks_aux_all16 l.length l le_rfl h

/-- Chunking the concatenation of 16-byte blocks recovers the block list. -/
theorem to_blocks_aux_of_block_list :
    ∀ (bs : List (List Nat)) (fuel : Nat), (∀ b ∈ bs, b.length = 16) →
      bs.flatten.length ≤ fuel → to_blocks_aux fuel bs.flatten = bs := by
  intro bs
  induction bs with
  | nil => intro fuel _ _; cases fuel <;> rfl
  | cons b bs ih =>
      intro fuel h hlen
      have hb : b.length = 16 := h b (by simp)
      cases b with
      | nil => simp at hb
      | cons a t =>
          cases fuel with
          | zero =>
              simp only [List.flatten_cons, List.cons_append, List.length_cons] at hlen
              omega
          | succ n =>
              show ((a :: (t ++ bs.flatten)).take 16)
                  :: to_blocks_aux n ((a :: (t ++ bs.flatten)).drop 16)
                = (a :: t) :: bs
              rw [← List.cons_append]
              have h16 : (16 : Nat) = (a :: t).length := hb.symm
              rw [h16, List.take_left, List.drop_left]
              congr 1
              refine ih n (fun x hx => h x (by simp [hx])) ?_
              simp only [List.flatten_cons, List.length_append,
                List.length_cons] at hlen
              simp only [List.length_cons] at hb
              omega

/-- Chunking the concatenation of 16-byte blocks recovers the block list. -/
theorem to_blocks_of_block_list (bs : List (List Nat))
    (h : ∀ b ∈ bs, b.length = 16) : to_blocks bs.flatten = bs :=
  to_blocks_aux_of_block_list bs bs.flatten.length h le_rfl

/-- PKCS7 padding always yields a multiple of 16 bytes. -/
theorem pkcs7_pad_length_mod (l : List Nat) : (pkcs7_pad l).length % 16 = 0 := by
  simp only [pkcs7_pad, List.length_append, List.length_replicate]
  omega

/-- The last element of a non-empty replicate. -/
theorem replicate_getLast_eq (k : Nat) (x : Nat) (hk : 0 < k) :
    (List.replicate k x).getLast? = some x := by
  cases k with
  | zero => omega
  | succ k =>
      rw [List.replicate_succ', List.getLast?_append_of_ne_nil _ (by simp)]
      rfl

/-- Unpadding inverts PKCS7 padding. -/
theorem pkcs7_unpad_pad (l : List Nat) : pkcs7_unpad (pkcs7_pad l) = some l := by
  have hn1 : 1 ≤ 16 - l.length % 16 := by omega
  have hn16 : 16 - l.length % 16 ≤ 16 := by omega
  have hlen : (pkcs7_pad l).length = l.length + (16 - l.length % 16) := by
    simp [pkcs7_pad]
  have hlast : (pkcs7_pad l).getLast? = some (16 - l.length % 16) := by
    rw [pkcs7_pad]
    show (l ++ List.replicate (16 - l.length % 16) (16 - l.length % 16)).getLast?
      = some (16 - l.length % 16)
    rw [List.getLast?_append_of_ne_nil _ (by simp; omega)]
    exact replicate_getLast_eq _ _ (by omega)
  rw [pkcs7_unpad]
  simp only [hlast, Option.getD_some]
  rw [if_pos]
  · congr 1
    have hsub : (pkcs7_pad l).length - (16 - l.length % 16) = l.length := by omega
    rw [hsub, pkcs7_pad]
    show (l ++ List.replicate (16 - l.length % 16) (16 - l.length % 16)).take l.length = l
    have hl : l.length = (l : List Nat).length := rfl
    conv_lhs => rw [show l.length = (l : List Nat).length from rfl]
    exact List.take_left _ _
  · refine ⟨pkcs7_pad_length_mod l, hn1, hn16, by omega, ?_⟩
    intro b hb
    have hsub : (pkcs7_pad l).length - (16 - l.length % 16) = l.length := by omega
    rw [hsub, pkcs7_pad] at hb
    have hb' : b ∈ List.replicate (16 - l.length % 16) (16 - l.length % 16) := by
      have := List.drop_left l (List.replicate (16 - l.length % 16) (16 - l.length % 16))
      rw [this] at hb
      exact hb
    exact List.eq_of_mem_replicate hb'

/-- C3: decrypting the output of encrypt_file with the same password yields
the original plaintext, for every plaintext (the empty one included) and
every password.  The block cipher family `E`/`D` and the key derivation
`kdf` are abstract; the only assumptions are the defining block-cipher
properties that `D k` inverts `E k` on 16-byte blocks and that `E k`
preserves the block size, together with the 16-byte salt and IV produced by
os.urandom(16). -/
theorem claim_C3_encrypt_decrypt_roundtrip {κ : Type}
    (E D : κ → List Nat → List Nat) (kdf : String → List Nat → κ)
    (password : String) (salt iv plaintext : List Nat)
    (hsalt : salt.length = 16) (hiv : iv.length = 16)
    (hD : ∀ k b, b.length = 16 → D k (E k b) = b)
    (hE : ∀ k b, b.length = 16 → (E k b).length = 16) :
    decrypt_file D kdf password (encrypt_file E kdf password salt iv plaintext)
      = some plaintext := by
  have hpall : ∀ b ∈ to_blocks (pkcs7_pad plaintext), b.length = 16 :=
    to_blocks_all16 _ (pkcs7_pad_length_mod plaintext)
  have hball : ∀ c ∈ cbc_encrypt_blocks (E (kdf password salt)) iv
      (to_blocks (pkcs7_pad plaintext)), c.length = 16 :=
    cbc_encrypt_blocks_all16 _ (hE _) _ iv hiv hpall
  have hct : encrypt_file E kdf password salt iv plaintext
      = salt ++ (iv ++ (cbc_encrypt_blocks (E (kdf password salt)) iv
          (to_blocks (pkcs7_pad plaintext))).flatten) := by
    simp only [encrypt_file]
    rw [List.append_assoc]
  have htake : (salt ++ (iv ++ (cbc_encrypt_blocks (E (kdf password salt)) iv
      (to_blocks (pkcs7_pad plaintext))).flatten)).take 16 = salt := by
    rw [← hsalt]
    exact List.take_left _ _
  have hdrop : (salt ++ (iv ++ (cbc_encrypt_blocks (E (kdf password salt)) iv
      (to_blocks (pkcs7_pad plaintext))).flatten)).drop 16
      = iv ++ (cbc_encrypt_blocks (E (kdf password salt)) iv
          (to_blocks (pkcs7_pad plaintext))).flatten := by
    rw [← hsalt]
    exact List.drop_left _ _
  have htake2 : (iv ++ (cbc_encrypt_blocks (E (kdf password salt)) iv
      (to_blocks (pkcs7_pad plaintext))).flatten).take 16 = iv := by
    rw [← hiv]
    exact List.take_left _ _
  have hdrop2 : (iv ++ (cbc_encrypt_blocks (E (kdf password salt)) iv
      (to_blocks (pkcs7_pad plaintext))).flatten).drop 16
      = (cbc_encrypt_blocks (E (kdf password salt)) iv
          (to_blocks (pkcs7_pad plaintext))).flatten := by
    rw [← hiv]
    exact List.drop_left _ _
  have hdrop32 : (salt ++ (iv ++ (cbc_encrypt_blocks (E (kdf password salt)) iv
      (to_blocks (pkcs7_pad plaintext))).flatten)).drop 32
      = (cbc_encrypt_blocks (E (kdf password salt)) iv
          (to_blocks (pkcs7_pad plaintext))).flatten := by
    rw [show (32 : Nat) = 16 + 16 from rfl, ← List.drop_drop, hdrop, hdrop2]
  rw [decrypt_file, hct]
  simp only [htake, hdrop, htake2, hdrop2, hdrop32]
  rw [to_blocks_of_block_list _ hball]
  rw [cbc_roundtrip (E (kdf password salt)) (D (kdf password salt))
    (hD _) (hE _) _ iv hiv hpall]
  rw [flatten_to_blocks]
  exact pkcs7_unpad_pad plaintext

/-- Witness for C3: the identity block cipher on a trivial key type, zero
salt and IV, plaintext [1,2,3]. -/
theorem claim_C3_encrypt_decrypt_roundtrip_witness :
    (List.replicate 16 0 : List Nat).length = 16 ∧
    decrypt_file (fun (_ : Unit) b => b) (fun _ _ => ()) "pw"
        (encrypt_file (fun (_ : Unit) b => b) (fun _ _ => ()) "pw"
          (List.replicate 16 0) (List.replicate 16 0) [1, 2, 3])
      = some [1, 2, 3] :=
  ⟨rfl,
    claim_C3_encrypt_decrypt_roundtrip (fun _ b => b) (fun _ b => b)
      (fun _ _ => ()) "pw" (List.replicate 16 0) (List.replicate 16 0)
      [1, 2, 3] rfl rfl (fun _ _ _ => rfl) (fun _ _ h => h)⟩
